import Mathlib

/-!
Verification of the CephFS client operator relation protocol.

This file shallowly embeds the core of the repository:

* the diff engine `_eval` of `lib/charms/storage_libs/v0/ceph_interfaces.py`,
* the requirer and provider relation-changed / relation-departed handlers and
  the leader-gated writers `_update_data`, `request_share` and `set_share` of
  the same library, and
* the charm-level handlers `_on_config_changed`, `_on_server_connected` and
  `_on_umount_share` together with `get_state` of `src/charm.py`,

and proves the spec-level properties about them.

Modelling conventions:

* A Juju databag is a Python dict from string keys to string values.  A value
  is either a plain string or the serialized JSON text of a richer value (a
  flat object, a bool, null, or a list of strings).  We represent a stored
  value by its parse tree `Val`; the constructor `Val.obj entries` stands for
  the serialized text of a flat JSON object whose key/value pairs appear in
  the order given by `entries`.  This keeps serialization order observable:
  two serializations of the same map with different key order are different
  `Val`s (different raw text), while `jsonLoads` decodes them to the same
  dictionary.
* A dict is an insertion-ordered association list `Bag`; `bagGet` is
  `dict.get`, `setKey` is `dict.__setitem__` (replace in place or append),
  matching Python dict semantics.
* Python exceptions are modelled with `Except PyError`.
-/

/-- Parse tree of a stored databag value (the JSON subset this protocol uses).
`obj entries` stands for the serialized text of a flat JSON object with the
pairs in `entries` order, so raw-text order is observable on `Val`. -/
inductive Val where
  | str : String → Val
  | bool : Bool → Val
  | null : Val
  | strList : List String → Val
  | obj : List (String × Val) → Val

/-- A databag (Python dict): insertion-ordered association list. -/
abbrev Bag := List (String × Val)

mutual

/-- Structural boolean equality on values (Python == on decoded JSON). -/
def Val.beq : Val → Val → Bool
  | .str a, .str b => a == b
  | .bool a, .bool b => a == b
  | .null, .null => true
  | .strList a, .strList b => a == b
  | .obj a, .obj b => Val.beqEntries a b
  | _, _ => false

/-- Boolean equality on object entry lists. -/
def Val.beqEntries : List (String × Val) → List (String × Val) → Bool
  | [], [] => true
  | (k1, v1) :: r1, (k2, v2) :: r2 => k1 == k2 && Val.beq v1 v2 && Val.beqEntries r1 r2
  | _, _ => false

end

mutual

/-- Soundness of `Val.beq`. -/
def Val.eq_of_beq : (a b : Val) → Val.beq a b = true → a = b
  | .str a, .str b, h => by
      have : a = b := by simpa [Val.beq] using h
      rw [this]
  | .bool a, .bool b, h => by
      have : a = b := by simpa [Val.beq] using h
      rw [this]
  | .null, .null, _ => rfl
  | .strList a, .strList b, h => by
      have : a = b := by simpa [Val.beq] using h
      rw [this]
  | .obj a, .obj b, h => by
      have : a = b := Val.eqEntries_of_beq a b (by simpa [Val.beq] using h)
      rw [this]
  | .str _, .bool _, h => nomatch h
  | .str _, .null, h => nomatch h
  | .str _, .strList _, h => nomatch h
  | .str _, .obj _, h => nomatch h
  | .bool _, .str _, h => nomatch h
  | .bool _, .null, h => nomatch h
  | .bool _, .strList _, h => nomatch h
  | .bool _, .obj _, h => nomatch h
  | .null, .str _, h => nomatch h
  | .null, .bool _, h => nomatch h
  | .null, .strList _, h => nomatch h
  | .null, .obj _, h => nomatch h
  | .strList _, .str _, h => nomatch h
  | .strList _, .bool _, h => nomatch h
  | .strList _, .null, h => nomatch h
  | .strList _, .obj _, h => nomatch h
  | .obj _, .str _, h => nomatch h
  | .obj _, .bool _, h => nomatch h
  | .obj _, .null, h => nomatch h
  | .obj _, .strList _, h => nomatch h

/-- Soundness of `Val.beqEntries`. -/
def Val.eqEntries_of_beq : (a b : List (String × Val)) → Val.beqEntries a b = true → a = b
  | [], [], _ => rfl
  | (k1, v1) :: r1, (k2, v2) :: r2, h => by
      have h' : (k1 == k2 && Val.beq v1 v2 && Val.beqEntries r1 r2) = true := by
        simpa [Val.beqEntries] using h
      have hk : k1 = k2 := by
        have := ((Bool.and_eq_true _ _).mp ((Bool.and_eq_true _ _).mp h').1).1
        simpa using this
      have hv : v1 = v2 :=
        Val.eq_of_beq v1 v2 ((Bool.and_eq_true _ _).mp ((Bool.and_eq_true _ _).mp h').1).2
      have hr : r1 = r2 := Val.eqEntries_of_beq r1 r2 ((Bool.and_eq_true _ _).mp h').2
      rw [hk, hv, hr]
  | [], _ :: _, h => nomatch h
  | _ :: _, [], h => nomatch h

end

mutual

/-- Reflexivity of `Val.beq`. -/
def Val.beq_refl : (a : Val) → Val.beq a a = true
  | .str a => by simp [Val.beq]
  | .bool a => by simp [Val.beq]
  | .null => rfl
  | .strList a => by simp [Val.beq]
  | .obj a => by simpa [Val.beq] using Val.beqEntries_refl a

/-- Reflexivity of `Val.beqEntries`. -/
def Val.beqEntries_refl : (a : List (String × Val)) → Val.beqEntries a a = true
  | [] => rfl
  | (k, v) :: r => by
      simp only [Val.beqEntries, Bool.and_eq_true]
      exact ⟨⟨by simp, Val.beq_refl v⟩, Val.beqEntries_refl r⟩

end

instance : DecidableEq Val := fun a b =>
  if h : Val.beq a b = true then .isTrue (Val.eq_of_beq a b h)
  else .isFalse (fun he => h (he ▸ Val.beq_refl a))

/-- Python dict lookup, `d.get(k)`: the value at the first matching key. -/
def bagGet : Bag → String → Option Val
  | [], _ => none
  | kv :: rest, k => if kv.1 = k then some kv.2 else bagGet rest k

/-- Python dict assignment, `d[k] = v`: replace the value of an existing key
in place, or append a fresh key at the end. -/
def setKey : Bag → String → Val → Bag
  | [], k, v => [(k, v)]
  | kv :: rest, k, v => if kv.1 = k then (k, v) :: rest else kv :: setKey rest k v

/-- Python `d.update(other)`: fold assignment over the entries of `other`. -/
def bagUpdate (b : Bag) (other : Bag) : Bag :=
  other.foldl (fun acc kv => setKey acc kv.1 kv.2) b

/-- The key set of a dict (Python `d.keys()` viewed as a set). -/
def keysOf (b : Bag) : Finset String :=
  (b.map Prod.fst).toFinset

/-- Building a Python dict from a key/value sequence (`json.loads` of an
object text): iterate assignment, so a repeated key keeps its first position
and its last value. -/
def dedupPairs (l : List (String × Val)) : Bag :=
  l.foldl (fun acc kv => setKey acc kv.1 kv.2) []

/-- Decoding a stored value, `json.loads`: an object text decodes to its dict,
order-insensitively.  The protocol only ever decodes object texts; other
shapes decode to the empty dict here (Python would fail later when treating
the result as a dict, which the evaluator models as an error, see `_eval`). -/
def jsonLoads : Val → Bag
  | .obj l => dedupPairs l
  | _ => []

/-- Whether a stored value is the text of a JSON object. -/
def Val.isObj : Val → Bool
  | .obj _ => true
  | _ => false

/-- Python truthiness of `d.get(k)`: `None`, JSON null, the empty string, the
empty list and the empty object are falsy. -/
def pyTruthy : Option Val → Bool
  | none => false
  | some (.str s) => !(s == "")
  | some (.bool b) => b
  | some .null => false
  | some (.strList l) => !l.isEmpty
  | some (.obj l) => !l.isEmpty

/-- Python `d.get(k) is None`: true when the key is absent or its value is
JSON null (which decodes to Python `None`). -/
def pyIsNone : Option Val → Bool
  | none => true
  | some .null => true
  | _ => false

/-- The keys of a dict are distinct (true of every real Python dict). -/
def nodupKeys (b : Bag) : Prop :=
  (b.map Prod.fst).Nodup

instance (b : Bag) : Decidable (nodupKeys b) := by
  unfold nodupKeys
  infer_instance

theorem keysOf_nil : keysOf [] = ∅ := rfl

theorem keysOf_cons (kv : String × Val) (b : Bag) :
    keysOf (kv :: b) = insert kv.1 (keysOf b) := by
  simp [keysOf]

theorem bagGet_cons_self (kv : String × Val) (b : Bag) (k : String) (h : kv.1 = k) :
    bagGet (kv :: b) k = some kv.2 := by
  simp [bagGet, h]

theorem bagGet_cons_ne (kv : String × Val) (b : Bag) (k : String) (h : kv.1 ≠ k) :
    bagGet (kv :: b) k = bagGet b k := by
  simp [bagGet, h]

theorem bagGet_isSome_iff_mem_keysOf (b : Bag) (k : String) :
    (bagGet b k).isSome = true ↔ k ∈ keysOf b := by
  induction b with
  | nil => simp [bagGet, keysOf]
  | cons kv rest ih =>
      rw [keysOf_cons, Finset.mem_insert]
      by_cases h : kv.1 = k
      · rw [bagGet_cons_self kv rest k h]
        simp [h.symm]
      · rw [bagGet_cons_ne kv rest k h, ih]
        constructor
        · exact Or.inr
        · rintro (hk | hm)
          · exact absurd hk.symm h
          · exact hm

theorem bagGet_setKey_self (b : Bag) (k : String) (v : Val) :
    bagGet (setKey b k v) k = some v := by
  induction b with
  | nil => simp [setKey, bagGet]
  | cons kv rest ih =>
      by_cases h : kv.1 = k
      · simp [setKey, bagGet, h]
      · simp [setKey, bagGet, h, ih]

theorem bagGet_setKey_ne (b : Bag) (k k' : String) (v : Val) (h : k' ≠ k) :
    bagGet (setKey b k v) k' = bagGet b k' := by
  have hne : ¬k = k' := fun hk => h hk.symm
  induction b with
  | nil => simp [setKey, bagGet, hne]
  | cons kv rest ih =>
      by_cases hk : kv.1 = k
      · subst hk
        have : ¬kv.1 = k' := fun hk2 => h hk2.symm
        simp [setKey, bagGet, this]
      · by_cases hk' : kv.1 = k'
        · simp [setKey, bagGet, hk, hk', h]
        · simp [setKey, bagGet, hk, hk', ih]

theorem keysOf_setKey (b : Bag) (k : String) (v : Val) :
    keysOf (setKey b k v) = insert k (keysOf b) := by
  induction b with
  | nil => simp [setKey, keysOf]
  | cons kv rest ih =>
      by_cases h : kv.1 = k
      · subst h
        rw [show setKey (kv :: rest) kv.1 v = (kv.1, v) :: rest by simp [setKey]]
        rw [keysOf_cons, keysOf_cons, Finset.insert_idem]
      · simp only [setKey, if_neg h]
        rw [keysOf_cons, keysOf_cons, ih, Finset.Insert.comm]

theorem keysOf_dedupPairs_aux (l : List (String × Val)) (acc : Bag) :
    keysOf (l.foldl (fun a kv => setKey a kv.1 kv.2) acc) = keysOf acc ∪ keysOf l := by
  induction l generalizing acc with
  | nil => simp [keysOf]
  | cons kv rest ih =>
      simp only [List.foldl_cons]
      rw [ih, keysOf_setKey]
      simp only [keysOf, List.map_cons, List.toFinset_cons]
      rw [Finset.insert_union, Finset.union_insert]

theorem keysOf_dedupPairs (l : List (String × Val)) :
    keysOf (dedupPairs l) = keysOf l := by
  unfold dedupPairs
  rw [keysOf_dedupPairs_aux]
  simp [keysOf]

theorem setKey_of_not_mem (b : Bag) (k : String) (v : Val) (h : k ∉ keysOf b) :
    setKey b k v = b ++ [(k, v)] := by
  induction b with
  | nil => simp [setKey]
  | cons kv rest ih =>
      simp only [keysOf, List.map_cons, List.toFinset_cons, Finset.mem_insert] at h
      push_neg at h
      simp only [setKey, if_neg (fun he : kv.1 = k => h.1 he.symm), List.cons_append]
      rw [ih (by simpa [keysOf] using h.2)]

theorem dedupPairs_aux_eq_append (l : List (String × Val)) (acc : Bag)
    (hl : (l.map Prod.fst).Nodup) (hd : ∀ k ∈ keysOf l, k ∉ keysOf acc) :
    l.foldl (fun a kv => setKey a kv.1 kv.2) acc = acc ++ l := by
  induction l generalizing acc with
  | nil => simp
  | cons kv rest ih =>
      simp only [List.map_cons, List.nodup_cons] at hl
      simp only [List.foldl_cons]
      have hnotacc : kv.1 ∉ keysOf acc := hd kv.1 (by simp [keysOf])
      rw [setKey_of_not_mem acc kv.1 kv.2 hnotacc]
      rw [ih (acc ++ [kv]) hl.2 ?_]
      · simp
      · intro k hk
        have hkrest : k ∈ rest.map Prod.fst := by simpa [keysOf] using hk
        simp only [keysOf, List.map_append, List.toFinset_append, Finset.mem_union]
        push_neg
        constructor
        · intro hmem
          exact hd k (by simp [keysOf, hkrest]) (by simpa [keysOf] using hmem)
        · simp only [List.map_cons, List.map_nil, List.toFinset_cons, List.toFinset_nil]
          simp only [Finset.mem_insert, Finset.not_mem_empty, or_false]
          intro hke
          exact hl.1 (hke ▸ hkrest)

theorem dedupPairs_eq_self (l : List (String × Val)) (h : (l.map Prod.fst).Nodup) :
    dedupPairs l = l := by
  unfold dedupPairs
  rw [dedupPairs_aux_eq_append l [] h (by simp [keysOf])]
  simp

/-! ## The diff engine and state machines of ceph_interfaces.py -/

/-- A modelled Python exception. -/
inductive PyError where
  | keyError : PyError
  | attributeError : PyError
deriving DecidableEq

/-- Transaction between two data mappings (class `_Transaction`): the added,
changed and deleted key sets. -/
structure _Transaction where
  added : Finset String
  changed : Finset String
  deleted : Finset String
deriving DecidableEq

/-- The databags an integration-changed event exposes to `_eval`: `bucket` is
the local databag passed by the caller (the unit databag, holding the `cache`
key) and `appBag` is `event.relation.data[event.app]`, the remote
application's databag. -/
structure RelationData where
  bucket : Bag
  appBag : Bag
deriving DecidableEq

/-- The decoded previous snapshot: `json.loads` of the stored `cache` value,
defaulting to the empty object text. -/
def oldData (rel : RelationData) : Bag :=
  jsonLoads ((bagGet rel.bucket "cache").getD (Val.obj []))

/-- The new snapshot: the remote application databag minus the reserved
`cache` key. -/
def newData (rel : RelationData) : Bag :=
  rel.appBag.filter (fun kv => kv.1 ≠ "cache")

/-- Whether the stored `cache` value (defaulting to the empty object text)
decodes to a dict; `_eval` fails on any other shape. -/
def cacheWF (b : Bag) : Bool :=
  ((bagGet b "cache").getD (Val.obj [])).isObj

/-- The diff engine `_eval`: decode the previous snapshot from the `cache`
key of `bucket`, take the remote application databag minus `cache` as the new
snapshot, compute the added, deleted and changed key sets, and
unconditionally write the serialization of the new snapshot back under
`cache`.  A non-object `cache` value makes the Python original fail when it
calls `.keys()` on the decoded value, modelled as an error. -/
def _eval (rel : RelationData) : Except PyError (_Transaction × RelationData) :=
  match (bagGet rel.bucket "cache").getD (Val.obj []) with
  | .obj entries =>
    let old_data := dedupPairs entries
    let new_data := rel.appBag.filter (fun kv => kv.1 ≠ "cache")
    let added := keysOf new_data \ keysOf old_data
    let deleted := keysOf old_data \ keysOf new_data
    let changed := (keysOf old_data ∩ keysOf new_data).filter
        (fun k => bagGet old_data k ≠ bagGet new_data k)
    .ok (⟨added, changed, deleted⟩,
         { rel with bucket := setKey rel.bucket "cache" (Val.obj new_data) })
  | _ => .error .attributeError

/-- The transaction `_eval` returns on a well-formed cache. -/
def evalTransaction (rel : RelationData) : _Transaction :=
  ⟨keysOf (newData rel) \ keysOf (oldData rel),
   (keysOf (oldData rel) ∩ keysOf (newData rel)).filter
      (fun k => bagGet (oldData rel) k ≠ bagGet (newData rel) k),
   keysOf (oldData rel) \ keysOf (newData rel)⟩

/-- The relation state `_eval` leaves behind on a well-formed cache. -/
def evalState (rel : RelationData) : RelationData :=
  { rel with bucket := setKey rel.bucket "cache" (Val.obj (newData rel)) }

theorem eval_of_wf (rel : RelationData) (h : cacheWF rel.bucket = true) :
    _eval rel = .ok (evalTransaction rel, evalState rel) := by
  unfold _eval evalTransaction evalState oldData newData
  unfold cacheWF at h
  cases hv : (bagGet rel.bucket "cache").getD (Val.obj []) with
  | obj entries => simp [jsonLoads, hv]
  | str s => rw [hv] at h; exact absurd h (by simp [Val.isObj])
  | bool b => rw [hv] at h; exact absurd h (by simp [Val.isObj])
  | null => rw [hv] at h; exact absurd h (by simp [Val.isObj])
  | strList l => rw [hv] at h; exact absurd h (by simp [Val.isObj])

theorem eval_ok_wf (rel : RelationData) (p : _Transaction × RelationData)
    (h : _eval rel = .ok p) : cacheWF rel.bucket = true := by
  unfold _eval at h
  unfold cacheWF
  cases hv : (bagGet rel.bucket "cache").getD (Val.obj []) with
  | obj entries => simp [Val.isObj]
  | str s => rw [hv] at h; exact absurd h (by simp)
  | bool b => rw [hv] at h; exact absurd h (by simp)
  | null => rw [hv] at h; exact absurd h (by simp)
  | strList l => rw [hv] at h; exact absurd h (by simp)

theorem eval_ok_eq (rel : RelationData) (p : _Transaction × RelationData)
    (h : _eval rel = .ok p) :
    p = (evalTransaction rel, evalState rel) := by
  have := eval_of_wf rel (eval_ok_wf rel p h)
  rw [this] at h
  exact (Except.ok.inj h).symm

/-- Events the requirer interface can emit. -/
inductive ReqEvent where
  | serverConnected : ReqEvent
  | mountShare : ReqEvent
  | umountShare : ReqEvent
deriving DecidableEq

/-- Events the provider interface can emit. -/
inductive ProvEvent where
  | shareRequested : ProvEvent
deriving DecidableEq

/-- The event emitted by a handler result, if any. -/
def emittedEvent {E : Type} : Except PyError (Option E × RelationData) → Option E
  | .ok (e, _) => e
  | .error _ => none

/-- Information about a shared CephFS (class `CephFSShareInfo`). -/
structure CephFSShareInfo where
  fsid : String
  name : String
  path : String
  monitor_hosts : List String
  auth_id : String
deriving DecidableEq

/-- Serialization of a share descriptor, `json.dumps(share_info.dict())`:
a flat object in dataclass field order. -/
def CephFSShareInfo.dumps (info : CephFSShareInfo) : Val :=
  Val.obj [("fsid", .str info.fsid), ("name", .str info.name),
           ("path", .str info.path), ("monitor_hosts", .strList info.monitor_hosts),
           ("auth_id", .str info.auth_id)]

/-- One relation instance as seen by `_BaseInterface`: its id, this side's
application databag (`data[self.app]`), the remote application databag and
this unit's databag. -/
structure Integration where
  id : Nat
  localApp : Bag
  remoteApp : Bag
  localUnit : Bag
deriving DecidableEq

/-- The relation store: the live integrations of one relation name. -/
structure Store where
  integrations : List Integration
deriving DecidableEq

/-- Method `_BaseInterface._update_data`: only the leader writes; it looks the
integration up by id (`model.get_relation`) and merges `data` into this
side's application databag.  A missing id makes the Python original
dereference `None`, modelled as an error.  A non-leader call does nothing. -/
def _update_data (isLeader : Bool) (store : Store) (integrationId : Nat) (data : Bag) :
    Except PyError Store :=
  if isLeader then
    match store.integrations.find? (fun i => i.id = integrationId) with
    | some _ =>
        .ok ⟨store.integrations.map (fun i =>
          if i.id = integrationId then { i with localApp := bagUpdate i.localApp data } else i)⟩
    | none => .error .attributeError
  else .ok store

namespace CephFSRequires

/-- Handler `CephFSRequires._on_relation_changed`: evaluate the diff against
the unit databag cache and emit `MountShare` exactly when `share_info` is
among the added keys. -/
def _on_relation_changed (rel : RelationData) :
    Except PyError (Option ReqEvent × RelationData) :=
  match _eval rel with
  | .ok (transaction, rel') =>
      .ok (if "share_info" ∈ transaction.added then some .mountShare else none, rel')
  | .error e => .error e

/-- Handler `CephFSRequires._on_relation_departed`: unconditionally emit
`UmountShare`.  The handler ignores leadership and the relation state, so the
model takes them as unused arguments. -/
def _on_relation_departed (_isLeader : Bool) (_rel : RelationData) : Option ReqEvent :=
  some .umountShare

/-- Method `CephFSRequires.request_share`: leader-gated write of the single
pair `name ↦ name` into the local application databag of one integration. -/
def request_share (isLeader : Bool) (store : Store) (integrationId : Nat)
    (shareName : String) : Except PyError Store :=
  if isLeader then _update_data isLeader store integrationId [("name", .str shareName)]
  else .ok store

end CephFSRequires

namespace CephFSProvides

/-- Handler `CephFSProvides._on_relation_changed`: leader-gated; evaluate the
diff and emit `ShareRequested` exactly when `name` is among the added keys. -/
def _on_relation_changed (isLeader : Bool) (rel : RelationData) :
    Except PyError (Option ProvEvent × RelationData) :=
  if isLeader then
    match _eval rel with
    | .ok (transaction, rel') =>
        .ok (if "name" ∈ transaction.added then some .shareRequested else none, rel')
    | .error e => .error e
  else .ok (none, rel)

/-- Method `CephFSProvides.set_share`: leader-gated write of the serialized
share descriptor under `share_info`. -/
def set_share (isLeader : Bool) (store : Store) (integrationId : Nat)
    (share_info : CephFSShareInfo) : Except PyError Store :=
  if isLeader then
    _update_data isLeader store integrationId [("share_info", share_info.dumps)]
  else .ok store

end CephFSProvides

/-! ## The charm layer of src/charm.py -/

/-- A unit status set by the charm. -/
inductive StatusV where
  | active : String → StatusV
  | blocked : String → StatusV
  | waiting : String → StatusV
  | maintenance : String → StatusV
deriving DecidableEq

/-- The per-mount boolean option names (constant `MOUNT_OPTS`). -/
def MOUNT_OPTS : List String := ["noexec", "nosuid", "nodev", "read-only"]

/-- The Juju charm configuration the handlers read via `self.config.get`:
the `mountpoint` string option and the boolean mount options. -/
structure CharmConfig where
  mountpoint : Option String
  opts : String → Option Bool

/-- A stored value for a config field coming from `self.config.get`:
Python `None` serializes to JSON null. -/
def valOfOptBool : Option Bool → Val
  | none => .null
  | some b => .bool b

/-- Method `get_state`: with no peer relation return the empty dict,
otherwise decode the JSON stored in the peer application databag under
`key` (defaulting to the empty object text). -/
def get_state (peers : Option Bag) (key : String) : Bag :=
  match peers with
  | none => []
  | some b => jsonLoads ((bagGet b key).getD (Val.obj []))

/-- One iteration of the config-changed option loop: when the stored value
of `opt` is Python None, store the charm config value for `opt` (None
serializing to null), otherwise reject the attempt (it is only logged). -/
def mergeOpt (cfg : CharmConfig) (c : Bag) (opt : String) : Bag :=
  if pyIsNone (bagGet c opt) then setKey c opt (valOfOptBool (cfg.opts opt)) else c

/-- The config-changed option loop: fold `mergeOpt` over `MOUNT_OPTS`. -/
def mergeOpts (cfg : CharmConfig) (c : Bag) : Bag :=
  MOUNT_OPTS.foldl (mergeOpt cfg) c

/-- The frozen config produced by one config-changed delivery with charm
mountpoint `mp`: set `mountpoint` unless its stored value is truthy, then
run the option loop. -/
def frozenMerge (cfg : CharmConfig) (mp : String) (stored : Bag) : Bag :=
  mergeOpts cfg
    (if pyTruthy (bagGet stored "mountpoint") then stored
     else setKey stored "mountpoint" (Val.str mp))

/-- Handler `_on_config_changed`: block when the charm config has no (or an
empty) mountpoint; otherwise merge the config into the frozen state with
write-once-per-field policy (truthiness-gated for `mountpoint`,
is-None-gated for each option in `MOUNT_OPTS`), store it via `set_state`
(which dereferences the peer relation, an error when it is absent), and go
to waiting status.  Returns the new peer databag and the final status. -/
def _on_config_changed (cfg : CharmConfig) (peers : Option Bag) :
    Except PyError (Option Bag × StatusV) :=
  match cfg.mountpoint with
  | none => .ok (peers, .blocked "No configured mountpoint")
  | some mp =>
    if mp = "" then .ok (peers, .blocked "No configured mountpoint")
    else
      let config := frozenMerge cfg mp (get_state peers "config")
      match peers with
      | none => .error .attributeError
      | some pb =>
          .ok (some (setKey pb "config" (Val.obj config)), .waiting "Waiting for CephFS share")

/-- Observable outcome of `_on_server_connected`. -/
structure ConnectedOut where
  status : StatusV
  deferred : Bool
  requested : Option (Nat × Val)
deriving DecidableEq

/-- Handler `_on_server_connected`: read the frozen mountpoint; when falsy,
set blocked status and defer the event; otherwise call
`request_share(event.relation.id, name=mountpoint)` under maintenance
status. -/
def _on_server_connected (peers : Option Bag) (relId : Nat) : ConnectedOut :=
  let mp := bagGet (get_state peers "config") "mountpoint"
  if pyTruthy mp then
    ⟨.maintenance "Requesting CephFS share", false, some (relId, mp.getD .null)⟩
  else
    ⟨.blocked "No configured mountpoint", true, none⟩

/-- Observable outcome of `_on_umount_share`. -/
structure UmountOut where
  status : StatusV
  umountCalled : Bool
deriving DecidableEq

/-- Handler `_on_umount_share`: index the frozen config with
`config["mountpoint"]` (KeyError when the key is absent), then unmount when
the mountpoint is mounted (surfacing a failure as blocked status) and skip
with a warning otherwise; both non-failing paths end in waiting status.  The
mount subsystem is an external collaborator, modelled by the oracle inputs
`isMounted` and `umountErr`. -/
def _on_umount_share (peers : Option Bag) (isMounted : Bool) (umountErr : Option String) :
    Except PyError UmountOut :=
  match bagGet (get_state peers "config") "mountpoint" with
  | none => .error .keyError
  | some _ =>
    if isMounted then
      match umountErr with
      | some msg => .ok ⟨.blocked msg, true⟩
      | none => .ok ⟨.waiting "Waiting for CephFS share", true⟩
    else .ok ⟨.waiting "Waiting for CephFS share", false⟩

instance {ε α : Type} [DecidableEq ε] [DecidableEq α] : DecidableEq (Except ε α) := fun x y =>
  match x, y with
  | .ok a, .ok b =>
      if h : a = b then .isTrue (by rw [h])
      else .isFalse (by intro hc; injection hc; contradiction)
  | .error a, .error b =>
      if h : a = b then .isTrue (by rw [h])
      else .isFalse (by intro hc; injection hc; contradiction)
  | .ok _, .error _ => .isFalse (by intro hc; injection hc)
  | .error _, .ok _ => .isFalse (by intro hc; injection hc)

/-! ## Claim theorems -/

/-- C1: for every pair of snapshots whose decoded values are equal
key-by-key, `_eval` returns a transaction with added, changed and deleted
all empty, regardless of the serialization order of the cached snapshot: a
key present in both snapshots with value-identical post-deserialization
content never appears in changed, even when the raw serialized text
differs. -/
theorem c1_value_equal_snapshots_empty_transaction
    (rel : RelationData) (t : _Transaction) (rel' : RelationData)
    (hok : _eval rel = .ok (t, rel'))
    (heq : ∀ k ∈ keysOf (oldData rel) ∪ keysOf (newData rel),
        bagGet (oldData rel) k = bagGet (newData rel) k) :
    t = ⟨∅, ∅, ∅⟩ := by
  have ht : t = evalTransaction rel := congrArg Prod.fst (eval_ok_eq rel (t, rel') hok)
  have hkeys : keysOf (oldData rel) = keysOf (newData rel) := by
    ext k
    constructor
    · intro hk
      have := heq k (Finset.mem_union_left _ hk)
      rw [← bagGet_isSome_iff_mem_keysOf, ← this, bagGet_isSome_iff_mem_keysOf]
      exact hk
    · intro hk
      have := heq k (Finset.mem_union_right _ hk)
      rw [← bagGet_isSome_iff_mem_keysOf, this, bagGet_isSome_iff_mem_keysOf]
      exact hk
  rw [ht]
  unfold evalTransaction
  rw [hkeys]
  congr 1
  · exact Finset.sdiff_self _
  · rw [Finset.inter_self]
    apply Finset.filter_eq_empty_iff.mpr
    intro k hk
    have := heq k (Finset.mem_union_right _ hk)
    simp [this]
  · exact Finset.sdiff_self _

/-- C1 witness: a cached snapshot serialized in the opposite key order of
the live databag still produces an all-empty transaction. -/
theorem c1_witness :
    _eval ⟨[("cache", Val.obj [("b", Val.str "2"), ("a", Val.str "1")])],
           [("a", Val.str "1"), ("b", Val.str "2")]⟩ =
      .ok (⟨∅, ∅, ∅⟩,
        ⟨[("cache", Val.obj [("a", Val.str "1"), ("b", Val.str "2")])],
         [("a", Val.str "1"), ("b", Val.str "2")]⟩) := by
  have h := c1_value_equal_snapshots_empty_transaction
    ⟨[("cache", Val.obj [("b", Val.str "2"), ("a", Val.str "1")])],
     [("a", Val.str "1"), ("b", Val.str "2")]⟩
    (evalTransaction ⟨[("cache", Val.obj [("b", Val.str "2"), ("a", Val.str "1")])],
     [("a", Val.str "1"), ("b", Val.str "2")]⟩)
    (evalState ⟨[("cache", Val.obj [("b", Val.str "2"), ("a", Val.str "1")])],
     [("a", Val.str "1"), ("b", Val.str "2")]⟩)
    (eval_of_wf _ (by decide)) (by decide)
  rw [eval_of_wf _ (by decide), h]
  decide

/-- C5: with disjoint key sets the transaction is added = new keys,
deleted = old keys, changed empty; in general the three sets are pairwise
disjoint, a key in exactly one snapshot lands in added or deleted, a key in
both with differing values lands in changed, and a key with identical
values in both is absent from all three sets. -/
theorem c5_transaction_partition
    (rel : RelationData) (t : _Transaction) (rel' : RelationData)
    (hok : _eval rel = .ok (t, rel')) :
    (keysOf (oldData rel) ∩ keysOf (newData rel) = ∅ →
        t.added = keysOf (newData rel) ∧ t.deleted = keysOf (oldData rel) ∧ t.changed = ∅)
    ∧ (t.added ∩ t.changed = ∅ ∧ t.added ∩ t.deleted = ∅ ∧ t.changed ∩ t.deleted = ∅)
    ∧ (∀ k, k ∈ keysOf (newData rel) → k ∉ keysOf (oldData rel) → k ∈ t.added)
    ∧ (∀ k, k ∈ keysOf (oldData rel) → k ∉ keysOf (newData rel) → k ∈ t.deleted)
    ∧ (∀ k, k ∈ keysOf (oldData rel) → k ∈ keysOf (newData rel) →
        bagGet (oldData rel) k ≠ bagGet (newData rel) k → k ∈ t.changed)
    ∧ (∀ k, k ∈ keysOf (oldData rel) → k ∈ keysOf (newData rel) →
        bagGet (oldData rel) k = bagGet (newData rel) k →
        k ∉ t.added ∧ k ∉ t.changed ∧ k ∉ t.deleted) := by
  have ht : t = evalTransaction rel := congrArg Prod.fst (eval_ok_eq rel (t, rel') hok)
  subst ht
  unfold evalTransaction
  simp only
  refine ⟨?_, ⟨?_, ?_, ?_⟩, ?_, ?_, ?_, ?_⟩
  · intro hdisj
    refine ⟨?_, ?_, ?_⟩
    · apply Finset.sdiff_eq_self_iff_disjoint.mpr
      rw [Finset.disjoint_iff_inter_eq_empty, Finset.inter_comm]
      exact hdisj
    · apply Finset.sdiff_eq_self_iff_disjoint.mpr
      rw [Finset.disjoint_iff_inter_eq_empty]
      exact hdisj
    · rw [hdisj]
      exact Finset.filter_empty _
  · apply Finset.eq_empty_iff_forall_not_mem.mpr
    intro k hk
    rw [Finset.mem_inter, Finset.mem_sdiff, Finset.mem_filter, Finset.mem_inter] at hk
    exact hk.1.2 hk.2.1.1
  · apply Finset.eq_empty_iff_forall_not_mem.mpr
    intro k hk
    rw [Finset.mem_inter, Finset.mem_sdiff, Finset.mem_sdiff] at hk
    exact hk.1.2 hk.2.1
  · apply Finset.eq_empty_iff_forall_not_mem.mpr
    intro k hk
    rw [Finset.mem_inter, Finset.mem_filter, Finset.mem_inter, Finset.mem_sdiff] at hk
    exact hk.2.2 hk.1.1.2
  · intro k hknew hkold
    rw [Finset.mem_sdiff]
    exact ⟨hknew, hkold⟩
  · intro k hkold hknew
    rw [Finset.mem_sdiff]
    exact ⟨hkold, hknew⟩
  · intro k hkold hknew hne
    rw [Finset.mem_filter, Finset.mem_inter]
    exact ⟨⟨hkold, hknew⟩, hne⟩
  · intro k hkold hknew heqv
    refine ⟨?_, ?_, ?_⟩
    · rw [Finset.mem_sdiff]
      exact fun h => h.2 hkold
    · rw [Finset.mem_filter]
      exact fun h => h.2 heqv
    · rw [Finset.mem_sdiff]
      exact fun h => h.2 hknew

/-- C5 witness: on disjoint snapshots {old: a} and {new: x} the transaction
is exactly added = {x}, deleted = {a}, changed = empty, and the key x with
identical value in both snapshots of a second state is in no set. -/
theorem c5_witness :
    ((evalTransaction ⟨[("cache", Val.obj [("a", Val.str "1")])], [("x", Val.str "7")]⟩).added =
        keysOf [("x", Val.str "7")]
      ∧ (evalTransaction ⟨[("cache", Val.obj [("a", Val.str "1")])], [("x", Val.str "7")]⟩).deleted =
        keysOf [("a", Val.str "1")]
      ∧ (evalTransaction ⟨[("cache", Val.obj [("a", Val.str "1")])], [("x", Val.str "7")]⟩).changed = ∅) := by
  have h := (c5_transaction_partition
    ⟨[("cache", Val.obj [("a", Val.str "1")])], [("x", Val.str "7")]⟩
    (evalTransaction ⟨[("cache", Val.obj [("a", Val.str "1")])], [("x", Val.str "7")]⟩)
    (evalState ⟨[("cache", Val.obj [("a", Val.str "1")])], [("x", Val.str "7")]⟩)
    (eval_of_wf _ (by decide))).1 (by decide)
  exact ⟨by rw [h.1]; decide, by rw [h.2.1]; decide, h.2.2⟩

theorem bagGet_cache_evalState (rel : RelationData) :
    bagGet (evalState rel).bucket "cache" = some (Val.obj (newData rel)) :=
  bagGet_setKey_self rel.bucket "cache" (Val.obj (newData rel))

theorem oldData_evalState (rel : RelationData) (hnd : nodupKeys (newData rel)) :
    oldData (evalState rel) = newData rel := by
  unfold oldData
  rw [bagGet_cache_evalState rel]
  simp only [Option.getD_some, jsonLoads]
  exact dedupPairs_eq_self _ hnd

/-- C6: evaluating twice in a row against the same new snapshot yields an
all-empty transaction on the second call, the cache having converged after
the first. -/
theorem c6_eval_idempotent (rel : RelationData) (t t2 : _Transaction) (rel' rel'' : RelationData)
    (hok : _eval rel = .ok (t, rel'))
    (hnd : nodupKeys (newData rel))
    (hok2 : _eval rel' = .ok (t2, rel'')) :
    t2 = ⟨∅, ∅, ∅⟩ := by
  have hrel' : rel' = evalState rel := congrArg Prod.snd (eval_ok_eq rel (t, rel') hok)
  subst hrel'
  have ht2 : t2 = evalTransaction (evalState rel) :=
    congrArg Prod.fst (eval_ok_eq _ (t2, rel'') hok2)
  rw [ht2]
  unfold evalTransaction
  rw [oldData_evalState rel hnd, show newData (evalState rel) = newData rel from rfl]
  congr 1
  · exact Finset.sdiff_self _
  · rw [Finset.inter_self]
    apply Finset.filter_eq_empty_iff.mpr
    intro k _
    simp
  · exact Finset.sdiff_self _

/-- C6 witness: a second evaluation over the converged cache of the
snapshot {a: 1} yields the all-empty transaction. -/
theorem c6_witness :
    evalTransaction (evalState ⟨[], [("a", Val.str "1")]⟩) = ⟨∅, ∅, ∅⟩ :=
  c6_eval_idempotent ⟨[], [("a", Val.str "1")]⟩
    (evalTransaction ⟨[], [("a", Val.str "1")]⟩)
    (evalTransaction (evalState ⟨[], [("a", Val.str "1")]⟩))
    (evalState ⟨[], [("a", Val.str "1")]⟩)
    (evalState (evalState ⟨[], [("a", Val.str "1")]⟩))
    (eval_of_wf _ (by decide)) (by decide) (eval_of_wf _ (by decide))

/-- C3: every successful `_eval` leaves the reserved cache key of the local
bucket holding the serialization of the new snapshot (all peer keys except
cache), without touching the peer databag; the write is unconditional, for
the requirer relation-changed handler it happens also when no semantic
event is derived. -/
theorem c3_cache_write_unconditional (rel : RelationData) :
    (∀ t rel', _eval rel = .ok (t, rel') →
        bagGet rel'.bucket "cache" = some (Val.obj (newData rel)) ∧ rel'.appBag = rel.appBag)
    ∧ (∀ ev rel2, CephFSRequires._on_relation_changed rel = .ok (ev, rel2) →
        bagGet rel2.bucket "cache" = some (Val.obj (newData rel))) := by
  constructor
  · intro t rel' hok
    have hrel' : rel' = evalState rel := congrArg Prod.snd (eval_ok_eq rel (t, rel') hok)
    subst hrel'
    exact ⟨bagGet_cache_evalState rel, rfl⟩
  · intro ev rel2 hok
    unfold CephFSRequires._on_relation_changed at hok
    cases heval : _eval rel with
    | error e =>
        rw [heval] at hok
        exact absurd hok (by simp)
    | ok p =>
        obtain ⟨t, rel'⟩ := p
        rw [heval] at hok
        simp only [Except.ok.injEq, Prod.mk.injEq] at hok
        have hrel' : rel' = evalState rel := congrArg Prod.snd (eval_ok_eq rel (t, rel') heval)
        rw [← hok.2, hrel']
        exact bagGet_cache_evalState rel

/-- C3 witness: on a state whose diff yields no semantic event (key `other`
added, no `share_info`), the handler still rewrites the cache to the new
snapshot, and the peer databag keeps its `cache` key excluded from the
snapshot. -/
theorem c3_witness :
    bagGet (evalState ⟨[("u", Val.str "v")],
        [("other", Val.str "s"), ("cache", Val.str "junk")]⟩).bucket "cache"
      = some (Val.obj [("other", Val.str "s")]) := by
  have h := (c3_cache_write_unconditional
      ⟨[("u", Val.str "v")], [("other", Val.str "s"), ("cache", Val.str "junk")]⟩).2
    none
    (evalState ⟨[("u", Val.str "v")], [("other", Val.str "s"), ("cache", Val.str "junk")]⟩)
    (by decide)
  exact h.trans (by decide)

theorem cacheWF_evalState_bucket (rel : RelationData) :
    cacheWF (evalState rel).bucket = true := by
  unfold cacheWF
  rw [bagGet_cache_evalState rel]
  rfl

theorem keysOf_oldData_after (rel : RelationData) (bag2 : Bag) :
    keysOf (oldData (RelationData.mk (evalState rel).bucket bag2)) = keysOf (newData rel) := by
  unfold oldData
  rw [show bagGet (RelationData.mk (evalState rel).bucket bag2).bucket "cache" =
        some (Val.obj (newData rel)) from bagGet_cache_evalState rel]
  simp only [Option.getD_some, jsonLoads]
  exact keysOf_dedupPairs _

theorem not_added_after_eval (rel : RelationData) (bag2 : Bag) (k : String)
    (hk : k ∈ keysOf (newData rel)) :
    k ∉ (evalTransaction (RelationData.mk (evalState rel).bucket bag2)).added := by
  unfold evalTransaction
  simp only
  rw [Finset.mem_sdiff]
  rintro ⟨-, hnot⟩
  apply hnot
  rw [keysOf_oldData_after rel bag2]
  exact hk

theorem requires_changed_of_ok (rel : RelationData) (t : _Transaction) (rel' : RelationData)
    (hok : _eval rel = .ok (t, rel')) :
    CephFSRequires._on_relation_changed rel =
      .ok (if "share_info" ∈ t.added then some ReqEvent.mountShare else none, rel') := by
  unfold CephFSRequires._on_relation_changed
  rw [hok]

theorem provides_changed_of_ok (rel : RelationData) (t : _Transaction) (rel' : RelationData)
    (hok : _eval rel = .ok (t, rel')) :
    CephFSProvides._on_relation_changed true rel =
      .ok (if "name" ∈ t.added then some ProvEvent.shareRequested else none, rel') := by
  unfold CephFSProvides._on_relation_changed
  rw [if_pos rfl, hok]

/-- C2: the requirer relation-changed handler emits MountShare if and only
if share_info is among the added keys, the provider handler emits
ShareRequested if and only if it is leader and name is among the added
keys; and once the trigger key is part of the evaluated snapshot, no later
delivery over the updated cache re-emits the event, whatever the peer
publishes (in particular a republish with different content, which lands in
changed, emits nothing). -/
theorem c2_first_appearance_only_trigger
    (rel : RelationData) (t : _Transaction) (rel' : RelationData)
    (hok : _eval rel = .ok (t, rel')) :
    (emittedEvent (CephFSRequires._on_relation_changed rel) = some ReqEvent.mountShare ↔
        "share_info" ∈ t.added)
    ∧ (∀ isLeader : Bool,
        emittedEvent (CephFSProvides._on_relation_changed isLeader rel) =
            some ProvEvent.shareRequested ↔
          (isLeader = true ∧ "name" ∈ t.added))
    ∧ ("share_info" ∈ keysOf (newData rel) → ∀ bag2 : Bag,
        emittedEvent (CephFSRequires._on_relation_changed
            (RelationData.mk rel'.bucket bag2)) ≠ some ReqEvent.mountShare)
    ∧ ("name" ∈ keysOf (newData rel) → ∀ bag2 : Bag,
        emittedEvent (CephFSProvides._on_relation_changed true
            (RelationData.mk rel'.bucket bag2)) ≠ some ProvEvent.shareRequested) := by
  have hrel' : rel' = evalState rel := congrArg Prod.snd (eval_ok_eq rel (t, rel') hok)
  subst hrel'
  refine ⟨?_, ?_, ?_, ?_⟩
  · rw [requires_changed_of_ok rel t _ hok]
    by_cases h : "share_info" ∈ t.added
    · simp [emittedEvent, h]
    · simp [emittedEvent, h]
  · intro isLeader
    cases isLeader with
    | false => simp [CephFSProvides._on_relation_changed, emittedEvent]
    | true =>
        rw [provides_changed_of_ok rel t _ hok]
        by_cases h : "name" ∈ t.added
        · simp [emittedEvent, h]
        · simp [emittedEvent, h]
  · intro hmem bag2
    have hok2 := eval_of_wf (RelationData.mk (evalState rel).bucket bag2)
      (cacheWF_evalState_bucket rel)
    rw [requires_changed_of_ok _ _ _ hok2,
        if_neg (not_added_after_eval rel bag2 _ hmem)]
    simp [emittedEvent]
  · intro hmem bag2
    have hok2 := eval_of_wf (RelationData.mk (evalState rel).bucket bag2)
      (cacheWF_evalState_bucket rel)
    rw [provides_changed_of_ok _ _ _ hok2,
        if_neg (not_added_after_eval rel bag2 _ hmem)]
    simp [emittedEvent]

/-- Concrete state for the C2 witness: fresh cache, peer published both
trigger keys. -/
def c2Rel : RelationData :=
  RelationData.mk [] [("share_info", Val.str "x"), ("name", Val.str "n")]

/-- C2 witness: the first delivery emits MountShare; a republish of
share_info with different content after the cache update emits nothing, and
a changed name on the provider side emits nothing either. -/
theorem c2_witness :
    emittedEvent (CephFSRequires._on_relation_changed c2Rel) = some ReqEvent.mountShare
    ∧ emittedEvent (CephFSRequires._on_relation_changed
        (RelationData.mk (evalState c2Rel).bucket
          [("share_info", Val.str "republished"), ("name", Val.str "n")])) ≠
        some ReqEvent.mountShare
    ∧ emittedEvent (CephFSProvides._on_relation_changed true
        (RelationData.mk (evalState c2Rel).bucket
          [("share_info", Val.str "x"), ("name", Val.str "renamed")])) ≠
        some ProvEvent.shareRequested := by
  have h := c2_first_appearance_only_trigger c2Rel (evalTransaction c2Rel) (evalState c2Rel)
    (eval_of_wf _ (by decide))
  exact ⟨h.1.mpr (by decide), h.2.2.1 (by decide) _, h.2.2.2 (by decide) _⟩

/-- C4: a non-leader invocation of request_share or set_share returns the
relation store completely unmodified and raises no exception. -/
theorem c4_nonleader_writes_are_silent_noops
    (store : Store) (integrationId : Nat) (shareName : String) (info : CephFSShareInfo) :
    CephFSRequires.request_share false store integrationId shareName = .ok store
    ∧ CephFSProvides.set_share false store integrationId info = .ok store := by
  constructor
  · rfl
  · rfl

/-- C8: while the frozen mountpoint is unset, a ServerConnected delivery is
deferred (not dropped, no request_share call) under blocked status with
message No configured mountpoint; with a set (non-empty) mountpoint it
instead issues request_share with the integration id and name equal to the
mountpoint. -/
theorem c8_server_connected_defers_without_mountpoint
    (peers : Option Bag) (relId : Nat) :
    (pyIsNone (bagGet (get_state peers "config") "mountpoint") = true →
        _on_server_connected peers relId =
          ⟨.blocked "No configured mountpoint", true, none⟩)
    ∧ (∀ s : String, bagGet (get_state peers "config") "mountpoint" = some (Val.str s) →
        s ≠ "" →
        _on_server_connected peers relId =
          ⟨.maintenance "Requesting CephFS share", false, some (relId, Val.str s)⟩) := by
  constructor
  · intro h
    unfold _on_server_connected
    cases hmp : bagGet (get_state peers "config") "mountpoint" with
    | none => simp [hmp, pyTruthy]
    | some v =>
        rw [hmp] at h
        cases v with
        | null => simp [hmp, pyTruthy]
        | str s => exact absurd h (by simp [pyIsNone])
        | bool b => exact absurd h (by simp [pyIsNone])
        | strList l => exact absurd h (by simp [pyIsNone])
        | obj l => exact absurd h (by simp [pyIsNone])
  · intro s hmp hs
    unfold _on_server_connected
    rw [hmp]
    have ht : pyTruthy (some (Val.str s)) = true := by
      simp [pyTruthy]
      exact hs
    simp [ht]

/-- C8 witness: with an empty frozen config the event is deferred under
blocked status; with mountpoint /data the handler requests a share named
/data on integration 7. -/
theorem c8_witness :
    _on_server_connected (some []) 7 = ⟨.blocked "No configured mountpoint", true, none⟩
    ∧ _on_server_connected
        (some [("config", Val.obj [("mountpoint", Val.str "/data")])]) 7 =
        ⟨.maintenance "Requesting CephFS share", false, some (7, Val.str "/data")⟩ :=
  ⟨(c8_server_connected_defers_without_mountpoint (some []) 7).1 (by decide),
   (c8_server_connected_defers_without_mountpoint
      (some [("config", Val.obj [("mountpoint", Val.str "/data")])]) 7).2
     "/data" (by decide) (by decide)⟩

/-- C9: a peer departure unconditionally emits UmountShare, with no leader
gating and regardless of mount state; the umount handler then calls umount
exactly when the mountpoint is currently mounted (skipping with a warning
otherwise), and in both cases, absent an unmount error, the unit status
becomes waiting. -/
theorem c9_departed_unconditional_umount :
    (∀ (isLeader : Bool) (rel : RelationData),
        CephFSRequires._on_relation_departed isLeader rel = some ReqEvent.umountShare)
    ∧ (∀ (peers : Option Bag) (isMounted : Bool) (mpv : Val),
        bagGet (get_state peers "config") "mountpoint" = some mpv →
        _on_umount_share peers isMounted none =
          .ok ⟨.waiting "Waiting for CephFS share", isMounted⟩) := by
  constructor
  · intro isLeader rel
    rfl
  · intro peers isMounted mpv hmp
    unfold _on_umount_share
    rw [hmp]
    cases isMounted with
    | true => rfl
    | false => rfl

/-- C9 witness: departure emits UmountShare whether or not this unit leads,
and the umount handler reaches waiting status both when mounted (umount
called) and when not mounted (umount skipped). -/
theorem c9_witness :
    CephFSRequires._on_relation_departed false (RelationData.mk [] []) =
        some ReqEvent.umountShare
    ∧ _on_umount_share (some [("config", Val.obj [("mountpoint", Val.str "/data")])])
        true none = .ok ⟨.waiting "Waiting for CephFS share", true⟩
    ∧ _on_umount_share (some [("config", Val.obj [("mountpoint", Val.str "/data")])])
        false none = .ok ⟨.waiting "Waiting for CephFS share", false⟩ :=
  ⟨c9_departed_unconditional_umount.1 false (RelationData.mk [] []),
   c9_departed_unconditional_umount.2
     (some [("config", Val.obj [("mountpoint", Val.str "/data")])]) true
     (Val.str "/data") (by decide),
   c9_departed_unconditional_umount.2
     (some [("config", Val.obj [("mountpoint", Val.str "/data")])]) false
     (Val.str "/data") (by decide)⟩

/-- C10: the umount handler indexes the frozen config without a guard, so
whenever the stored config is empty or lacks the mountpoint key it raises a
KeyError instead of surfacing any status. -/
theorem c10_umount_keyerror_without_mountpoint
    (peers : Option Bag) (isMounted : Bool) (umountErr : Option String)
    (h : bagGet (get_state peers "config") "mountpoint" = none) :
    _on_umount_share peers isMounted umountErr = .error .keyError := by
  unfold _on_umount_share
  rw [h]

/-- C10 witness: a peer departure delivered before any config-changed ever
stored a mountpoint (peer relation present but config bucket empty, and no
peer relation at all) raises KeyError. -/
theorem c10_witness :
    _on_umount_share (some []) true none = .error .keyError
    ∧ _on_umount_share none false none = .error .keyError :=
  ⟨c10_umount_keyerror_without_mountpoint (some []) true none (by decide),
   c10_umount_keyerror_without_mountpoint none false none (by decide)⟩

theorem nodupKeys_setKey (b : Bag) (k : String) (v : Val) (h : nodupKeys b) :
    nodupKeys (setKey b k v) := by
  induction b with
  | nil => simp [setKey, nodupKeys]
  | cons kv rest ih =>
      unfold nodupKeys at h
      rw [List.map_cons, List.nodup_cons] at h
      by_cases hk : kv.1 = k
      · subst hk
        rw [show setKey (kv :: rest) kv.1 v = (kv.1, v) :: rest by simp [setKey]]
        unfold nodupKeys
        rw [List.map_cons, List.nodup_cons]
        exact h
      · rw [show setKey (kv :: rest) k v = kv :: setKey rest k v by simp [setKey, hk]]
        unfold nodupKeys
        rw [List.map_cons, List.nodup_cons]
        constructor
        · intro hmem
          have : kv.1 ∈ keysOf (setKey rest k v) := by
            unfold keysOf
            rw [List.mem_toFinset]
            exact hmem
          rw [keysOf_setKey, Finset.mem_insert] at this
          rcases this with heq | hmem2
          · exact hk heq
          · exact h.1 (by simpa [keysOf] using hmem2)
        · exact ih h.2

theorem nodupKeys_dedupPairs_aux (l : List (String × Val)) (acc : Bag) (h : nodupKeys acc) :
    nodupKeys (l.foldl (fun a kv => setKey a kv.1 kv.2) acc) := by
  induction l generalizing acc with
  | nil => exact h
  | cons kv rest ih =>
      rw [List.foldl_cons]
      exact ih _ (nodupKeys_setKey acc kv.1 kv.2 h)

theorem nodupKeys_dedupPairs (l : List (String × Val)) : nodupKeys (dedupPairs l) :=
  nodupKeys_dedupPairs_aux l [] (by simp [nodupKeys])

theorem nodupKeys_jsonLoads (v : Val) : nodupKeys (jsonLoads v) := by
  cases v with
  | obj l => exact nodupKeys_dedupPairs l
  | str s => simp [jsonLoads, nodupKeys]
  | bool b => simp [jsonLoads, nodupKeys]
  | null => simp [jsonLoads, nodupKeys]
  | strList l => simp [jsonLoads, nodupKeys]

theorem nodupKeys_get_state (peers : Option Bag) (key : String) :
    nodupKeys (get_state peers key) := by
  cases peers with
  | none => simp [get_state, nodupKeys]
  | some b => exact nodupKeys_jsonLoads _

theorem bagGet_mergeOpt_ne (cfg : CharmConfig) (c : Bag) (opt k : String) (h : k ≠ opt) :
    bagGet (mergeOpt cfg c opt) k = bagGet c k := by
  unfold mergeOpt
  by_cases hg : pyIsNone (bagGet c opt) = true
  · rw [if_pos hg]
    exact bagGet_setKey_ne c opt k _ h
  · rw [if_neg hg]

theorem bagGet_mergeOpt_self (cfg : CharmConfig) (c : Bag) (opt : String) :
    bagGet (mergeOpt cfg c opt) opt =
      if pyIsNone (bagGet c opt) = true then some (valOfOptBool (cfg.opts opt))
      else bagGet c opt := by
  unfold mergeOpt
  by_cases hg : pyIsNone (bagGet c opt) = true
  · rw [if_pos hg, if_pos hg]
    exact bagGet_setKey_self c opt _
  · rw [if_neg hg, if_neg hg]

theorem nodupKeys_mergeOpt (cfg : CharmConfig) (c : Bag) (opt : String) (h : nodupKeys c) :
    nodupKeys (mergeOpt cfg c opt) := by
  unfold mergeOpt
  by_cases hg : pyIsNone (bagGet c opt) = true
  · rw [if_pos hg]
    exact nodupKeys_setKey c opt _ h
  · rw [if_neg hg]
    exact h

theorem mergeOpts_eq (cfg : CharmConfig) (c : Bag) :
    mergeOpts cfg c =
      mergeOpt cfg (mergeOpt cfg (mergeOpt cfg (mergeOpt cfg c "noexec") "nosuid")
        "nodev") "read-only" := rfl

theorem nodupKeys_mergeOpts (cfg : CharmConfig) (c : Bag) (h : nodupKeys c) :
    nodupKeys (mergeOpts cfg c) := by
  rw [mergeOpts_eq]
  exact nodupKeys_mergeOpt _ _ _
    (nodupKeys_mergeOpt _ _ _ (nodupKeys_mergeOpt _ _ _ (nodupKeys_mergeOpt _ _ _ h)))

theorem bagGet_mergeOpts_other (cfg : CharmConfig) (c : Bag) (k : String)
    (h1 : k ≠ "noexec") (h2 : k ≠ "nosuid") (h3 : k ≠ "nodev") (h4 : k ≠ "read-only") :
    bagGet (mergeOpts cfg c) k = bagGet c k := by
  rw [mergeOpts_eq, bagGet_mergeOpt_ne _ _ _ _ h4, bagGet_mergeOpt_ne _ _ _ _ h3,
      bagGet_mergeOpt_ne _ _ _ _ h2, bagGet_mergeOpt_ne _ _ _ _ h1]

theorem bagGet_mergeOpts_opt (cfg : CharmConfig) (c : Bag) (opt : String)
    (hmem : opt ∈ MOUNT_OPTS) :
    bagGet (mergeOpts cfg c) opt =
      if pyIsNone (bagGet c opt) = true then some (valOfOptBool (cfg.opts opt))
      else bagGet c opt := by
  rw [mergeOpts_eq]
  simp only [MOUNT_OPTS, List.mem_cons, List.not_mem_nil, or_false] at hmem
  rcases hmem with rfl | rfl | rfl | rfl
  · rw [bagGet_mergeOpt_ne _ _ _ _ (by decide), bagGet_mergeOpt_ne _ _ _ _ (by decide),
        bagGet_mergeOpt_ne _ _ _ _ (by decide), bagGet_mergeOpt_self]
  · rw [bagGet_mergeOpt_ne _ _ _ _ (by decide), bagGet_mergeOpt_ne _ _ _ _ (by decide),
        bagGet_mergeOpt_self, bagGet_mergeOpt_ne _ _ _ _ (by decide)]
  · rw [bagGet_mergeOpt_ne _ _ _ _ (by decide), bagGet_mergeOpt_self,
        bagGet_mergeOpt_ne _ _ _ _ (by decide), bagGet_mergeOpt_ne _ _ _ _ (by decide)]
  · rw [bagGet_mergeOpt_self, bagGet_mergeOpt_ne _ _ _ _ (by decide),
        bagGet_mergeOpt_ne _ _ _ _ (by decide), bagGet_mergeOpt_ne _ _ _ _ (by decide)]

theorem mount_opt_ne_mountpoint (opt : String) (h : opt ∈ MOUNT_OPTS) :
    opt ≠ "mountpoint" := by
  simp only [MOUNT_OPTS, List.mem_cons, List.not_mem_nil, or_false] at h
  rcases h with rfl | rfl | rfl | rfl <;> decide

theorem bagGet_mountpoint_step (stored : Bag) (mp : String) (opt : String)
    (h : opt ≠ "mountpoint") :
    bagGet (if pyTruthy (bagGet stored "mountpoint") then stored
            else setKey stored "mountpoint" (Val.str mp)) opt = bagGet stored opt := by
  by_cases hg : pyTruthy (bagGet stored "mountpoint") = true
  · rw [if_pos hg]
  · rw [if_neg hg]
    exact bagGet_setKey_ne stored "mountpoint" opt _ h

theorem pyTruthy_false_of_pyIsNone (o : Option Val) (h : pyIsNone o = true) :
    pyTruthy o = false := by
  cases o with
  | none => rfl
  | some v =>
      cases v with
      | null => rfl
      | str s => exact absurd h (by simp [pyIsNone])
      | bool b => exact absurd h (by simp [pyIsNone])
      | strList l => exact absurd h (by simp [pyIsNone])
      | obj l => exact absurd h (by simp [pyIsNone])

theorem get_state_setKey_obj (pb : Bag) (key : String) (c : Bag) (h : nodupKeys c) :
    get_state (some (setKey pb key (Val.obj c))) key = c := by
  show jsonLoads ((bagGet (setKey pb key (Val.obj c)) key).getD (Val.obj [])) = c
  rw [bagGet_setKey_self]
  show dedupPairs c = c
  exact dedupPairs_eq_self c h

/-- C7: configuration is write-once per field.  A config-changed delivery
with a set charm mountpoint stores the merged frozen config and reaches
waiting status; in the merge, a mountpoint already frozen to a non-empty
string is left unchanged and an unset (absent or null) one is accepted,
and each per-mount boolean flag already non-null is left unchanged while a
still-unset flag is accepted and merged. -/
theorem c7_config_write_once (cfg : CharmConfig) (pb : Bag) (mp : String)
    (hmp : cfg.mountpoint = some mp) (hne : mp ≠ "") :
    _on_config_changed cfg (some pb) =
        .ok (some (setKey pb "config"
              (Val.obj (frozenMerge cfg mp (get_state (some pb) "config")))),
            .waiting "Waiting for CephFS share")
    ∧ get_state (some (setKey pb "config"
          (Val.obj (frozenMerge cfg mp (get_state (some pb) "config"))))) "config" =
        frozenMerge cfg mp (get_state (some pb) "config")
    ∧ (∀ s : String,
        bagGet (get_state (some pb) "config") "mountpoint" = some (Val.str s) → s ≠ "" →
        bagGet (frozenMerge cfg mp (get_state (some pb) "config")) "mountpoint" =
          some (Val.str s))
    ∧ (pyIsNone (bagGet (get_state (some pb) "config") "mountpoint") = true →
        bagGet (frozenMerge cfg mp (get_state (some pb) "config")) "mountpoint" =
          some (Val.str mp))
    ∧ (∀ opt ∈ MOUNT_OPTS,
        pyIsNone (bagGet (get_state (some pb) "config") opt) = false →
        bagGet (frozenMerge cfg mp (get_state (some pb) "config")) opt =
          bagGet (get_state (some pb) "config") opt)
    ∧ (∀ opt ∈ MOUNT_OPTS,
        pyIsNone (bagGet (get_state (some pb) "config") opt) = true →
        bagGet (frozenMerge cfg mp (get_state (some pb) "config")) opt =
          some (valOfOptBool (cfg.opts opt))) := by
  refine ⟨?_, ?_, ?_, ?_, ?_, ?_⟩
  · unfold _on_config_changed
    rw [hmp]
    dsimp only
    rw [if_neg hne]
  · have hnodup : nodupKeys (frozenMerge cfg mp (get_state (some pb) "config")) := by
      unfold frozenMerge
      apply nodupKeys_mergeOpts
      by_cases hg : pyTruthy (bagGet (get_state (some pb) "config") "mountpoint") = true
      · rw [if_pos hg]
        exact nodupKeys_get_state _ _
      · rw [if_neg hg]
        exact nodupKeys_setKey _ _ _ (nodupKeys_get_state _ _)
    exact get_state_setKey_obj pb "config" _ hnodup
  · intro s hs hsne
    unfold frozenMerge
    rw [bagGet_mergeOpts_other _ _ _ (by decide) (by decide) (by decide) (by decide)]
    have hg : pyTruthy (bagGet (get_state (some pb) "config") "mountpoint") = true := by
      rw [hs]
      simp [pyTruthy]
      exact hsne
    rw [if_pos hg]
    exact hs
  · intro hnone
    unfold frozenMerge
    rw [bagGet_mergeOpts_other _ _ _ (by decide) (by decide) (by decide) (by decide)]
    rw [if_neg (by rw [pyTruthy_false_of_pyIsNone _ hnone]; decide)]
    exact bagGet_setKey_self _ _ _
  · intro opt hopt hfalse
    unfold frozenMerge
    rw [bagGet_mergeOpts_opt _ _ _ hopt,
        bagGet_mountpoint_step _ mp _ (mount_opt_ne_mountpoint opt hopt),
        hfalse]
    simp
  · intro opt hopt htrue
    unfold frozenMerge
    rw [bagGet_mergeOpts_opt _ _ _ hopt,
        bagGet_mountpoint_step _ mp _ (mount_opt_ne_mountpoint opt hopt),
        htrue]
    simp

/-- Charm config exercising the C7 witness: mountpoint /new, nosuid false,
all other flags unset. -/
def c7Cfg : CharmConfig :=
  ⟨some "/new", fun opt => if opt = "nosuid" then some false else none⟩

/-- Stored peer databag for the C7 witness: mountpoint frozen to /data and
noexec frozen to true. -/
def c7Peer : Bag :=
  [("config", Val.obj [("mountpoint", Val.str "/data"), ("noexec", Val.bool true)])]

/-- C7 witness: re-setting the frozen mountpoint /data to /new is rejected,
the frozen noexec flag keeps its value, and the still-unset nosuid flag is
accepted and merged. -/
theorem c7_witness :
    bagGet (frozenMerge c7Cfg "/new" (get_state (some c7Peer) "config")) "mountpoint" =
        some (Val.str "/data")
    ∧ bagGet (frozenMerge c7Cfg "/new" (get_state (some c7Peer) "config")) "noexec" =
        some (Val.bool true)
    ∧ bagGet (frozenMerge c7Cfg "/new" (get_state (some c7Peer) "config")) "nosuid" =
        some (Val.bool false) := by
  have h := c7_config_write_once c7Cfg c7Peer "/new" rfl (by decide)
  refine ⟨h.2.2.1 "/data" (by decide) (by decide), ?_, ?_⟩
  · rw [h.2.2.2.2.1 "noexec" (by decide) (by decide)]
    decide
  · rw [h.2.2.2.2.2 "nosuid" (by decide) (by decide)]
    decide
